import Mathlib

/-
Verification of the tempfile core of this repository (the second translation
unit in src/ischroot.c, the `tempfile` utility): the mode parser, the
exclusive-creation loop with retry on collision, the explicit-name path, and
the close-before-report discipline.  The operating system (tempnam, open with
O_CREAT|O_EXCL, malloc/strdup success, close) is modelled as an environment of
oracles, and each run produces an outcome together with a trace of the
filesystem-visible events it performed, in order.
-/

set_option maxRecDepth 8000

namespace Tempfile

/-- Octal digit test: base-8 strtol accepts exactly the characters 0 to 7 as
digits. -/
def isOctal (c : Char) : Bool :=
  c = '0' || c = '1' || c = '2' || c = '3' ||
  c = '4' || c = '5' || c = '6' || c = '7'

/-- Whitespace skipped by strtol before the optional sign: the isspace set of
the C locale. -/
def isSpaceC (c : Char) : Bool :=
  c = ' ' || c = '\t' || c = '\n' || c = '\x0b' || c = '\x0c' || c = '\r'

/-- Numeric value of a run of octal digit characters, most significant
first. -/
def octVal (ds : List Char) : Nat :=
  ds.foldl (fun a c => a * 8 + (c.toNat - 48)) 0

/-- LONG_MAX on the LP64 targets tempfile is built for. -/
def longMax : Int := 9223372036854775807

/-- LONG_MIN on the LP64 targets tempfile is built for. -/
def longMin : Int := -9223372036854775808

/-- Sign handling of strtol: one optional plus or minus sign after the
whitespace has been skipped.  Returns the sign and the remaining input. -/
def stripSign (s : List Char) : Int × List Char :=
  match s with
  | [] => (1, [])
  | c :: t => if c = '+' then (1, t) else if c = '-' then (-1, t) else (1, s)

/-- strtol(in, &endptr, 8) on a NUL-free argv string, over lists of
characters: skip C-locale whitespace, read one optional sign, read the longest
run of octal digits, clamp the signed value into the long range.  When no
digit is read, no conversion is performed: the value is 0 and endptr is reset
to the start of the input.  Returns (value, endptr) where endptr is the
unconsumed tail; in C, *endptr is the NUL terminator exactly when this tail is
empty. -/
def strtol8 (s : List Char) : Int × List Char :=
  let s1 := s.dropWhile isSpaceC
  let p := stripSign s1
  let ds := p.2.takeWhile isOctal
  let rest := p.2.dropWhile isOctal
  if ds = [] then (0, s)
  else (max longMin (min longMax (p.1 * (octVal ds : Int))), rest)

/-- parsemode from tempfile.c: strtol in base 8, then reject when the string
was not fully consumed (*endptr nonzero), the value is negative, or the value
exceeds 07777.  The C function writes through the out pointer only on success
and returns 0; on failure it returns 1 and the caller keeps the previous mask,
so the embedding returns the pair (status, resulting mask). -/
def parsemode (input : List Char) (out : Nat) : Nat × Nat :=
  let r := strtol8 input
  if r.2 ≠ [] ∨ r.1 < 0 ∨ r.1 > 0o7777 then (1, out)
  else (0, r.1.toNat)

/-- Result of open(path, O_RDWR | O_CREAT | O_EXCL, mode): a fresh file
descriptor, failure with errno EEXIST, or failure with any other errno. -/
inductive OpenResult where
  | ok (fd : Nat)
  | eexist
  | othererr
deriving DecidableEq, Repr

/-- The events a run of tempfile performs against the outside world, in
order: a tempnam call with its result, an open attempt on a path with a mode
and its result, a free of a candidate string, a close of a descriptor with
its result, and a puts of the filename to standard output. -/
inductive Event where
  | evTempnam (k : Nat) (result : Option (List Char))
  | evOpen (path : List Char) (mode : Nat) (result : OpenResult)
  | evFree (s : List Char)
  | evClose (fd : Nat) (ok : Bool)
  | evPuts (s : List Char)
deriving DecidableEq, Repr

/-- Which syserror call terminated the process (each prints a diagnostic via
perror and exits with status 1). -/
inductive ErrKind where
  | errTempnam
  | errMalloc
  | errOpen
  | errStrdup
  | errClose
deriving DecidableEq, Repr

/-- Outcome of a run: success (exit 0 after printing the filename), a fatal
syserror (exit 1), an early exit from option processing with the given
status, or fuel exhaustion of the model (the C loop is unbounded). -/
inductive Outcome where
  | success (printed : List Char)
  | fatal (e : ErrKind)
  | earlyExit (code : Nat)
  | spin
deriving DecidableEq, Repr

/-- Exit status of an outcome; none when the model ran out of fuel. -/
def exitCode : Outcome → Option Nat
  | .success _ => some 0
  | .fatal _ => some 1
  | .earlyExit c => some c
  | .spin => none

/-- Result of the generated-name loop proper, before the close/puts
epilogue. -/
inductive LoopRes where
  | opened (fd : Nat) (nm : List Char)
  | failed (e : ErrKind)
  | spin
deriving DecidableEq, Repr

/-- The operating system, as oracles indexed by the attempt counter k:
tempnamRes dir pfx k is the result of the k-th tempnam(dir, pfx) call,
openRes k path the result of the open attempt of the k-th iteration (the
filesystem may change between attempts), mallocOk k whether the malloc for
the suffixed copy at attempt k succeeds, strdupOk whether the strdup of the
--name argument succeeds, and closeOk whether the final close succeeds. -/
structure Env where
  tempnamRes : Option (List Char) → Option (List Char) → Nat → Option (List Char)
  openRes : Nat → List Char → OpenResult
  mallocOk : Nat → Bool
  strdupOk : Bool
  closeOk : Bool

/-- Configuration built by option processing: tempfile.c's name, dir, pfx,
sfx pointers and the mode mask (default 0600). -/
structure Config where
  name : Option (List Char)
  dir : Option (List Char)
  pfx : Option (List Char)
  sfx : Option (List Char)
  mode : Nat
deriving DecidableEq, Repr

/-- The configuration at entry to the option loop. -/
def defaultConfig : Config :=
  { name := none, dir := none, pfx := none, sfx := none, mode := 0o600 }

/-- The filename actually opened: the tempnam result with the suffix
concatenated when one is configured (strcpy + strcat into the malloc'd
buffer), the tempnam result itself otherwise. -/
def applySfx (sfx : Option (List Char)) (nm : List Char) : List Char :=
  match sfx with
  | some s => nm ++ s
  | none => nm

/-- The frees performed for a candidate: `if (name != filename) free(name);
free(filename);`.  With a suffix the two buffers are distinct (even when the
suffix is empty, the pointers differ), so both are freed; without one, name
and filename are the same pointer and there is a single free. -/
def endFrees (nm : List Char) (sfx : Option (List Char)) : List Event :=
  match sfx with
  | some s => [.evFree nm, .evFree (nm ++ s)]
  | none => [.evFree nm]

/-- The generated-name loop of tempfile.c's main: call tempnam, abort on its
failure; build the suffixed filename (aborting if the malloc fails); attempt
the exclusive create; on success leave the loop with the descriptor and base
name; on EEXIST free the candidate buffers and start over with a fresh
tempnam; on any other open failure abort.  Fuel bounds the number of
iterations of the model; the C loop is unbounded. -/
def genLoop (env : Env) (cfg : Config) : Nat → Nat → LoopRes × List Event
  | 0, _ => (.spin, [])
  | fuel + 1, k =>
    match env.tempnamRes cfg.dir cfg.pfx k with
    | none => (.failed .errTempnam, [.evTempnam k none])
    | some nm =>
      if cfg.sfx.isSome && !(env.mallocOk k) then
        (.failed .errMalloc, [.evTempnam k (some nm)])
      else
        match env.openRes k (applySfx cfg.sfx nm) with
        | .ok fd =>
          (.opened fd nm,
           [.evTempnam k (some nm), .evOpen (applySfx cfg.sfx nm) cfg.mode (.ok fd)])
        | .eexist =>
          let r := genLoop env cfg fuel (k + 1)
          (r.1,
           .evTempnam k (some nm) :: .evOpen (applySfx cfg.sfx nm) cfg.mode .eexist ::
           (endFrees nm cfg.sfx ++ r.2))
        | .othererr =>
          (.failed .errOpen,
           [.evTempnam k (some nm), .evOpen (applySfx cfg.sfx nm) cfg.mode .othererr])

/-- The epilogue after a successful create: close the descriptor (fatal on
failure, before anything is printed), then puts the filename and free the
candidate buffers, exiting 0. -/
def finishClose (env : Env) (fd : Nat) (nm : List Char)
    (sfx : Option (List Char)) : Outcome × List Event :=
  if env.closeOk then
    (.success (applySfx sfx nm),
     .evClose fd true :: .evPuts (applySfx sfx nm) :: endFrees nm sfx)
  else
    (.fatal .errClose, [.evClose fd false])

/-- The body of tempfile.c's main after option processing: the explicit-name
path performs a single exclusive create on the literal name (any failure,
EEXIST included, is fatal via syserror); the generated-name path runs the
retry loop; both then close and report. -/
def tempfileRun (env : Env) (cfg : Config) (fuel : Nat) : Outcome × List Event :=
  match cfg.name with
  | some n =>
    match env.openRes 0 n with
    | .ok fd =>
      let r := finishClose env fd n none
      (r.1, .evOpen n cfg.mode (.ok fd) :: r.2)
    | .eexist => (.fatal .errOpen, [.evOpen n cfg.mode .eexist])
    | .othererr => (.fatal .errOpen, [.evOpen n cfg.mode .othererr])
  | none =>
    match genLoop env cfg fuel 0 with
    | (.opened fd nm, evs) =>
      let r := finishClose env fd nm cfg.sfx
      (r.1, evs ++ r.2)
    | (.failed e, evs) => (.fatal e, evs)
    | (.spin, evs) => (.spin, evs)

/-- One parsed command-line option, in the order getopt delivers them. -/
inductive OptTok where
  | optP (s : List Char)
  | optS (s : List Char)
  | optD (s : List Char)
  | optM (s : List Char)
  | optN (s : List Char)
  | optHelp
  | optVersion
  | optUnknown
deriving DecidableEq, Repr

/-- Result of the option loop: a configuration to run with, or an exit
(usage(0)/version exit 0; usage(1) or syserror("strdup") exit 1). -/
inductive ProcRes where
  | done (cfg : Config)
  | exited (code : Nat)
deriving DecidableEq, Repr

/-- The getopt loop of tempfile.c's main: -p, -s and -d store their argument;
-m parses the mode and on failure prints the invalid-mode diagnostic and
exits through usage(1); -n strdups its argument (syserror on allocation
failure); --help exits 0 through usage(0); --version prints and exits 0; an
unknown option exits 1 through usage(1). -/
def processOpts (env : Env) : List OptTok → Config → ProcRes
  | [], cfg => .done cfg
  | o :: rest, cfg =>
    match o with
    | .optP s => processOpts env rest { cfg with pfx := some s }
    | .optS s => processOpts env rest { cfg with sfx := some s }
    | .optD s => processOpts env rest { cfg with dir := some s }
    | .optM s =>
      if (parsemode s cfg.mode).1 = 1 then .exited 1
      else processOpts env rest { cfg with mode := (parsemode s cfg.mode).2 }
    | .optN s =>
      if env.strdupOk then processOpts env rest { cfg with name := some s }
      else .exited 1
    | .optHelp => .exited 0
    | .optVersion => .exited 0
    | .optUnknown => .exited 1

/-- tempfile.c's main: process the options; an exit from the option loop
produces no filesystem events; otherwise run the creation logic. -/
def tempfileMain (env : Env) (opts : List OptTok) (fuel : Nat) :
    Outcome × List Event :=
  match processOpts env opts defaultConfig with
  | .exited c => (.earlyExit c, [])
  | .done cfg => tempfileRun env cfg fuel

/-- True exactly on open events: used to count creation attempts. -/
def isOpenEv : Event → Bool
  | .evOpen _ _ _ => true
  | _ => false

/-- True exactly on puts events: used to count output lines. -/
def isPutsEv : Event → Bool
  | .evPuts _ => true
  | _ => false

lemma isOctal_elim {c : Char} (h : isOctal c = true) :
    c = '0' ∨ c = '1' ∨ c = '2' ∨ c = '3' ∨
    c = '4' ∨ c = '5' ∨ c = '6' ∨ c = '7' := by
  simp [isOctal] at h
  tauto

lemma isOctal_not_space {c : Char} (h : isOctal c = true) : isSpaceC c = false := by
  rcases isOctal_elim h with h | h | h | h | h | h | h | h <;> subst h <;> decide

lemma isOctal_ne_plus {c : Char} (h : isOctal c = true) : c ≠ '+' := by
  rcases isOctal_elim h with h | h | h | h | h | h | h | h <;> subst h <;> decide

lemma isOctal_ne_minus {c : Char} (h : isOctal c = true) : c ≠ '-' := by
  rcases isOctal_elim h with h | h | h | h | h | h | h | h <;> subst h <;> decide

lemma takeWhile_all {p : Char → Bool} :
    ∀ {l : List Char}, (∀ c ∈ l, p c = true) → l.takeWhile p = l
  | [], _ => rfl
  | c :: t, h => by
    have hc : p c = true := h c (List.mem_cons_self c t)
    rw [List.takeWhile_cons_of_pos hc,
        takeWhile_all (fun d hd => h d (List.mem_cons_of_mem c hd))]

lemma dropWhile_all {p : Char → Bool} :
    ∀ {l : List Char}, (∀ c ∈ l, p c = true) → l.dropWhile p = []
  | [], _ => rfl
  | c :: t, h => by
    have hc : p c = true := h c (List.mem_cons_self c t)
    rw [List.dropWhile_cons_of_pos hc]
    exact dropWhile_all (fun d hd => h d (List.mem_cons_of_mem c hd))

lemma takeWhile_append_stop {p : Char → Bool} {c : Char} {r : List Char}
    (hc : p c = false) :
    ∀ {ds : List Char}, (∀ d ∈ ds, p d = true) →
      (ds ++ c :: r).takeWhile p = ds
  | [], _ => by
    rw [List.nil_append, List.takeWhile_cons_of_neg (by simp [hc])]
  | d :: t, h => by
    have hd : p d = true := h d (List.mem_cons_self d t)
    rw [List.cons_append, List.takeWhile_cons_of_pos hd,
        takeWhile_append_stop hc (fun e he => h e (List.mem_cons_of_mem d he))]

lemma dropWhile_append_stop {p : Char → Bool} {c : Char} {r : List Char}
    (hc : p c = false) :
    ∀ {ds : List Char}, (∀ d ∈ ds, p d = true) →
      (ds ++ c :: r).dropWhile p = c :: r
  | [], _ => by
    rw [List.nil_append, List.dropWhile_cons_of_neg (by simp [hc])]
  | d :: t, h => by
    have hd : p d = true := h d (List.mem_cons_self d t)
    rw [List.cons_append, List.dropWhile_cons_of_pos hd]
    exact dropWhile_append_stop hc (fun e he => h e (List.mem_cons_of_mem d he))

lemma octVal_lt_longMax (ds : List Char) (h : octVal ds ≤ 0o7777) :
    (octVal ds : Int) ≤ longMax := by
  unfold longMax
  omega

/-- strtol8 on a pure, nonempty octal digit string: the whole string is
consumed and the value is the clamped octal value. -/
lemma strtol8_digits_any {ds : List Char} (hne : ds ≠ [])
    (hd : ∀ c ∈ ds, isOctal c = true) :
    strtol8 ds = (max longMin (min longMax (octVal ds : Int)), []) := by
  obtain ⟨c, t, rfl⟩ := List.exists_cons_of_ne_nil hne
  have hc : isOctal c = true := hd c (by simp)
  have hsp : isSpaceC c = false := isOctal_not_space hc
  have hdrop : (c :: t).dropWhile isSpaceC = c :: t :=
    List.dropWhile_cons_of_neg (by simp [hsp])
  have hsign : stripSign (c :: t) = (1, c :: t) := by
    simp [stripSign, isOctal_ne_plus hc, isOctal_ne_minus hc]
  have htake : (c :: t).takeWhile isOctal = c :: t := takeWhile_all hd
  have hdrop2 : (c :: t).dropWhile isOctal = [] := dropWhile_all hd
  simp only [strtol8, hdrop, hsign, htake, hdrop2]
  rw [if_neg (by simp), one_mul]

/-- strtol8 on a pure, nonempty octal digit string whose value stays in
range: the whole string is consumed and the value is exact. -/
lemma strtol8_digits {ds : List Char} (hne : ds ≠ [])
    (hd : ∀ c ∈ ds, isOctal c = true) (hle : octVal ds ≤ 0o7777) :
    strtol8 ds = ((octVal ds : Int), []) := by
  rw [strtol8_digits_any hne hd,
      min_eq_right (octVal_lt_longMax _ hle),
      max_eq_right (by unfold longMin; omega)]

/-- strtol8 on a nonempty octal digit run followed by a non-digit: the tail
starting at the junk character is the endptr. -/
lemma strtol8_junk {ds : List Char} {c : Char} {r : List Char} (hne : ds ≠ [])
    (hd : ∀ d ∈ ds, isOctal d = true) (hc : isOctal c = false) :
    (strtol8 (ds ++ c :: r)).2 = c :: r := by
  obtain ⟨d, t, rfl⟩ := List.exists_cons_of_ne_nil hne
  have hdo : isOctal d = true := hd d (by simp)
  have hsp : isSpaceC d = false := isOctal_not_space hdo
  have hdrop : ((d :: t) ++ c :: r).dropWhile isSpaceC = (d :: t) ++ c :: r := by
    rw [List.cons_append]
    exact List.dropWhile_cons_of_neg (by simp [hsp])
  have hsign : stripSign ((d :: t) ++ c :: r) = (1, (d :: t) ++ c :: r) := by
    rw [List.cons_append]
    simp [stripSign, isOctal_ne_plus hdo, isOctal_ne_minus hdo]
  have htake : ((d :: t) ++ c :: r).takeWhile isOctal = d :: t :=
    takeWhile_append_stop hc hd
  have hdrop2 : ((d :: t) ++ c :: r).dropWhile isOctal = c :: r :=
    dropWhile_append_stop hc hd
  simp only [strtol8, hdrop, hsign, htake, hdrop2]
  rw [if_neg (by simp)]

/-- strtol8 on a minus sign followed by a nonempty octal digit run: the whole
string is consumed and the value is the clamped negated octal value. -/
lemma strtol8_neg {ds : List Char} (hne : ds ≠ [])
    (hd : ∀ c ∈ ds, isOctal c = true) :
    strtol8 ('-' :: ds) = (max longMin (min longMax (-(octVal ds : Int))), []) := by
  have hdrop : ('-' :: ds).dropWhile isSpaceC = '-' :: ds :=
    List.dropWhile_cons_of_neg (by simp [isSpaceC])
  have hsign : stripSign ('-' :: ds) = (-1, ds) := by
    simp [stripSign]
  have htake : ds.takeWhile isOctal = ds := takeWhile_all hd
  have hdrop2 : ds.dropWhile isOctal = [] := dropWhile_all hd
  simp only [strtol8, hdrop, hsign, htake, hdrop2]
  rw [if_neg (by simpa using hne)]
  rw [neg_one_mul]

/-- C3 (counterexample): the string " 644" contains a character that is not an
octal digit (the leading space), yet parsemode accepts it and yields 0644 =
420: strtol skips leading C-locale whitespace before converting, so the claim
that every string containing non-octal characters is rejected fails. -/
theorem c3_counterexample :
    parsemode (' ' :: '6' :: '4' :: '4' :: []) 384 = (0, 420) ∧
    isOctal ' ' = false := by
  constructor
  · rfl
  · rfl

/-- C3 (amended): every nonempty pure octal digit string with value in
[0, 07777] is accepted with exactly that value; parsemode fails when the value
of a pure digit string exceeds 07777, when a nonempty digit run is followed by
any non-digit character, and when a minus sign precedes a digit run of nonzero
value (negative result); strtol-style leading whitespace and an optional sign
before the digits are, however, accepted rather than rejected. -/
theorem c3_parsemode_amended :
    (∀ (ds : List Char) (m : Nat), ds ≠ [] → (∀ c ∈ ds, isOctal c = true) →
      octVal ds ≤ 0o7777 → parsemode ds m = (0, octVal ds)) ∧
    (∀ (ds : List Char) (m : Nat), ds ≠ [] → (∀ c ∈ ds, isOctal c = true) →
      0o7777 < octVal ds → parsemode ds m = (1, m)) ∧
    (∀ (ds : List Char) (c : Char) (r : List Char) (m : Nat), ds ≠ [] →
      (∀ d ∈ ds, isOctal d = true) → isOctal c = false →
      parsemode (ds ++ c :: r) m = (1, m)) ∧
    (∀ (ds : List Char) (m : Nat), ds ≠ [] → (∀ c ∈ ds, isOctal c = true) →
      0 < octVal ds → parsemode ('-' :: ds) m = (1, m)) := by
  refine ⟨?_, ?_, ?_, ?_⟩
  · intro ds m hne hd hle
    simp only [parsemode, strtol8_digits hne hd hle]
    rw [if_neg (by
      rintro (h | h | h)
      · exact h rfl
      · omega
      · omega)]
    simp
  · intro ds m hne hd hgt
    have h1 : (4095 : Int) < min longMax (octVal ds : Int) := by
      rw [lt_min_iff]
      constructor
      · unfold longMax; omega
      · exact_mod_cast hgt
    have h2 : (4095 : Int) < max longMin (min longMax (octVal ds : Int)) :=
      lt_of_lt_of_le h1 (le_max_right _ _)
    simp only [parsemode, strtol8_digits_any hne hd]
    rw [if_pos (Or.inr (Or.inr h2))]
  · intro ds c r m hne hd hc
    have h2 := strtol8_junk (r := r) hne hd hc
    simp only [parsemode]
    rw [if_pos (Or.inl (by simp [h2]))]
  · intro ds m hne hd hpos
    have hv : -(octVal ds : Int) < 0 := by
      simp only [Left.neg_neg_iff]
      exact_mod_cast hpos
    have h1 : min longMax (-(octVal ds : Int)) = -(octVal ds : Int) :=
      min_eq_right (le_of_lt (lt_of_lt_of_le hv (by unfold longMax; omega)))
    have h2 : max longMin (min longMax (-(octVal ds : Int))) < 0 := by
      rw [h1, max_lt_iff]
      exact ⟨by unfold longMin; omega, hv⟩
    simp only [parsemode, strtol8_neg hne hd]
    rw [if_pos (Or.inr (Or.inl h2))]

/-- C3 witness: the four parts of the amended statement at concrete inputs:
"644" parses to 0644 = 420, "77777" (value 32767) is out of range, "64x" has
trailing junk, and "-7" is negative. -/
theorem c3_parsemode_amended_witness :
    parsemode ('6' :: '4' :: '4' :: []) 384 = (0, 420) ∧
    parsemode ('7' :: '7' :: '7' :: '7' :: '7' :: []) 384 = (1, 384) ∧
    parsemode (('6' :: '4' :: []) ++ 'x' :: []) 384 = (1, 384) ∧
    parsemode ('-' :: '7' :: []) 384 = (1, 384) := by
  refine ⟨?_, ?_, ?_, ?_⟩
  · have h := c3_parsemode_amended.1 ('6' :: '4' :: '4' :: []) 384
      (by decide) (by decide) (by decide)
    simpa using h
  · exact c3_parsemode_amended.2.1 ('7' :: '7' :: '7' :: '7' :: '7' :: []) 384
      (by decide) (by decide) (by decide)
  · exact c3_parsemode_amended.2.2.1 ('6' :: '4' :: []) 'x' [] 384
      (by decide) (by decide) (by decide)
  · exact c3_parsemode_amended.2.2.2 ('7' :: []) 384
      (by decide) (by decide) (by decide)

/-- C4 (counterexample): parsemode accepts the empty string.  strtol performs
no conversion, so endptr is left at the start of the (empty) input, *endptr is
the NUL terminator, the value is 0, and 0 is within [0, 07777]: the call
succeeds with mask 0 instead of being rejected. -/
theorem c4_counterexample : parsemode [] 384 = (0, 0) := rfl

/-- C4 (amended): on the empty string the mode parser succeeds and yields the
mask 0, whatever the previous mask was; it does not reject the empty
string. -/
theorem c4_empty_accepted (m : Nat) : parsemode [] m = (0, 0) := rfl

/-- C4 witness for the amended statement, at the previous mask 0. -/
theorem c4_empty_accepted_witness : parsemode [] 0 = (0, 0) :=
  c4_empty_accepted 0

/-- C9: the mode parser is strtol-lax: " 644" (leading C whitespace) and
"+644" (explicit plus sign) are not pure octal digit strings, yet both are
accepted with value 0644 = 420. -/
theorem c9_strtol_laxness :
    parsemode (' ' :: '6' :: '4' :: '4' :: []) 384 = (0, 420) ∧
    parsemode ('+' :: '6' :: '4' :: '4' :: []) 384 = (0, 420) ∧
    isSpaceC ' ' = true ∧ isOctal ' ' = false ∧ isOctal '+' = false := by
  refine ⟨rfl, rfl, rfl, rfl, rfl⟩

/-- C10: whenever parsemode fails (returns status 1), the resulting mask is
exactly the mask passed in: the C function writes through its out pointer only
after all checks pass, so the caller keeps the default 0600 or the previously
parsed mode. -/
theorem c10_failure_preserves_mask (input : List Char) (m : Nat)
    (h : (parsemode input m).1 = 1) : (parsemode input m).2 = m := by
  by_cases hc : (strtol8 input).2 ≠ [] ∨ (strtol8 input).1 < 0 ∨
      (strtol8 input).1 > 0o7777
  · simp only [parsemode, if_pos hc]
  · simp only [parsemode, if_neg hc] at h
    exact absurd h (by decide)

/-- C10 witness: "9" fails to parse (9 is not an octal digit) and the mask
stays 0600 = 384. -/
theorem c10_failure_preserves_mask_witness :
    (parsemode ('9' :: []) 384).2 = 384 :=
  c10_failure_preserves_mask ('9' :: []) 384 (by decide)

lemma genLoop_no_puts (env : Env) (cfg : Config) :
    ∀ fuel k p, Event.evPuts p ∉ (genLoop env cfg fuel k).2 := by
  intro fuel
  induction fuel with
  | zero => intro k p; simp [genLoop]
  | succ n ih =>
    intro k p
    cases htn : env.tempnamRes cfg.dir cfg.pfx k with
    | none => simp [genLoop, htn]
    | some nm =>
      by_cases hm : (cfg.sfx.isSome && !(env.mallocOk k)) = true
      · simp [genLoop, htn, hm]
      · cases hop : env.openRes k (applySfx cfg.sfx nm) with
        | ok fd => simp [genLoop, htn, hm, hop]
        | eexist =>
          have hrec := ih (k + 1) p
          cases hs : cfg.sfx <;> simp_all [genLoop, htn, hm, hop, endFrees]
        | othererr => simp [genLoop, htn, hm, hop]

lemma genLoop_no_close (env : Env) (cfg : Config) :
    ∀ fuel k fd b, Event.evClose fd b ∉ (genLoop env cfg fuel k).2 := by
  intro fuel
  induction fuel with
  | zero => intro k fd b; simp [genLoop]
  | succ n ih =>
    intro k fd b
    cases htn : env.tempnamRes cfg.dir cfg.pfx k with
    | none => simp [genLoop, htn]
    | some nm =>
      by_cases hm : (cfg.sfx.isSome && !(env.mallocOk k)) = true
      · simp [genLoop, htn, hm]
      · cases hop : env.openRes k (applySfx cfg.sfx nm) with
        | ok fd2 => simp [genLoop, htn, hm, hop]
        | eexist =>
          have hrec := ih (k + 1) fd b
          cases hs : cfg.sfx <;> simp_all [genLoop, htn, hm, hop, endFrees]
        | othererr => simp [genLoop, htn, hm, hop]

/-- One step of the generated-name loop when tempnam produced a name and the
suffix malloc (when applicable) succeeded: the behaviour is decided by the
open result on the suffixed candidate. -/
lemma genLoop_succ (env : Env) (cfg : Config) (fuel k : Nat) (nm : List Char)
    (htn : env.tempnamRes cfg.dir cfg.pfx k = some nm)
    (hm : (cfg.sfx.isSome && !(env.mallocOk k)) = false) :
    genLoop env cfg (fuel + 1) k =
      match env.openRes k (applySfx cfg.sfx nm) with
      | .ok fd =>
        (.opened fd nm,
         [.evTempnam k (some nm), .evOpen (applySfx cfg.sfx nm) cfg.mode (.ok fd)])
      | .eexist =>
        ((genLoop env cfg fuel (k + 1)).1,
         .evTempnam k (some nm) :: .evOpen (applySfx cfg.sfx nm) cfg.mode .eexist ::
         (endFrees nm cfg.sfx ++ (genLoop env cfg fuel (k + 1)).2))
      | .othererr =>
        (.failed .errOpen,
         [.evTempnam k (some nm), .evOpen (applySfx cfg.sfx nm) cfg.mode .othererr]) := by
  cases hop : env.openRes k (applySfx cfg.sfx nm) <;>
    simp [genLoop, htn, hm, hop]

lemma genLoop_opened_open_event (env : Env) (cfg : Config) :
    ∀ fuel k fd nm evs, genLoop env cfg fuel k = (.opened fd nm, evs) →
      Event.evOpen (applySfx cfg.sfx nm) cfg.mode (.ok fd) ∈ evs := by
  intro fuel
  induction fuel with
  | zero => intro k fd nm evs h; simp [genLoop] at h
  | succ n ih =>
    intro k fd nm evs h
    cases htn : env.tempnamRes cfg.dir cfg.pfx k with
    | none => simp [genLoop, htn] at h
    | some nm2 =>
      by_cases hm : (cfg.sfx.isSome && !(env.mallocOk k)) = true
      · simp [genLoop, htn, hm] at h
      · rw [Bool.not_eq_true] at hm
        rw [genLoop_succ env cfg n k nm2 htn hm] at h
        cases hop : env.openRes k (applySfx cfg.sfx nm2) with
        | ok fd2 =>
          simp only [hop, Prod.mk.injEq, LoopRes.opened.injEq] at h
          obtain ⟨⟨hfd, hnm⟩, hevs⟩ := h
          subst hfd hnm
          rw [← hevs]
          simp
        | eexist =>
          simp only [hop] at h
          have h1 : (genLoop env cfg n (k + 1)).1 = .opened fd nm :=
            congrArg Prod.fst h
          have h2 : Event.evTempnam k (some nm2) ::
              Event.evOpen (applySfx cfg.sfx nm2) cfg.mode .eexist ::
              (endFrees nm2 cfg.sfx ++ (genLoop env cfg n (k + 1)).2) = evs :=
            congrArg Prod.snd h
          have hmem := ih (k + 1) fd nm (genLoop env cfg n (k + 1)).2
            (by rw [← h1])
          rw [← h2]
          exact List.mem_cons_of_mem _ (List.mem_cons_of_mem _
            (List.mem_append_right _ hmem))
        | othererr =>
          simp only [hop, Prod.mk.injEq] at h
          exact absurd h.1 (by simp)

lemma genLoop_opened_tempnam (env : Env) (cfg : Config) :
    ∀ fuel k fd nm evs, genLoop env cfg fuel k = (.opened fd nm, evs) →
      ∃ j, env.tempnamRes cfg.dir cfg.pfx j = some nm ∧
        Event.evTempnam j (some nm) ∈ evs := by
  intro fuel
  induction fuel with
  | zero => intro k fd nm evs h; simp [genLoop] at h
  | succ n ih =>
    intro k fd nm evs h
    cases htn : env.tempnamRes cfg.dir cfg.pfx k with
    | none => simp [genLoop, htn] at h
    | some nm2 =>
      by_cases hm : (cfg.sfx.isSome && !(env.mallocOk k)) = true
      · simp [genLoop, htn, hm] at h
      · rw [Bool.not_eq_true] at hm
        rw [genLoop_succ env cfg n k nm2 htn hm] at h
        cases hop : env.openRes k (applySfx cfg.sfx nm2) with
        | ok fd2 =>
          simp only [hop, Prod.mk.injEq, LoopRes.opened.injEq] at h
          obtain ⟨⟨hfd, hnm⟩, hevs⟩ := h
          subst hfd hnm
          exact ⟨k, htn, by rw [← hevs]; simp⟩
        | eexist =>
          simp only [hop] at h
          have h1 : (genLoop env cfg n (k + 1)).1 = .opened fd nm :=
            congrArg Prod.fst h
          have h2 : Event.evTempnam k (some nm2) ::
              Event.evOpen (applySfx cfg.sfx nm2) cfg.mode .eexist ::
              (endFrees nm2 cfg.sfx ++ (genLoop env cfg n (k + 1)).2) = evs :=
            congrArg Prod.snd h
          obtain ⟨j, hj, hjmem⟩ := ih (k + 1) fd nm (genLoop env cfg n (k + 1)).2
            (by rw [← h1])
          refine ⟨j, hj, ?_⟩
          rw [← h2]
          exact List.mem_cons_of_mem _ (List.mem_cons_of_mem _
            (List.mem_append_right _ hjmem))
        | othererr =>
          simp only [hop, Prod.mk.injEq] at h
          exact absurd h.1 (by simp)

/-- C1: in generated-name mode, at an attempt whose tempnam produced nm (and
whose suffix malloc, when a suffix is configured, succeeded): if the exclusive
create on the (suffixed) candidate fails with EEXIST, both candidate buffers
are freed and the loop continues with a fresh tempnam call, whose candidate
again has the suffix applied before the next open (second conjunct); if the
create fails with any other errno, the loop aborts fatally through
syserror("open") with no further tempnam call or open attempt (the trace is
exactly the two events of this attempt). -/
theorem c1_retry_only_on_eexist (env : Env) (cfg : Config) (fuel k : Nat)
    (nm nm2 : List Char)
    (htn : env.tempnamRes cfg.dir cfg.pfx k = some nm)
    (hma : (cfg.sfx.isSome && !(env.mallocOk k)) = false)
    (htn2 : env.tempnamRes cfg.dir cfg.pfx (k + 1) = some nm2)
    (hma2 : (cfg.sfx.isSome && !(env.mallocOk (k + 1))) = false) :
    (env.openRes k (applySfx cfg.sfx nm) = .eexist →
      genLoop env cfg (fuel + 1) k =
        ((genLoop env cfg fuel (k + 1)).1,
         .evTempnam k (some nm) ::
         .evOpen (applySfx cfg.sfx nm) cfg.mode .eexist ::
         (endFrees nm cfg.sfx ++ (genLoop env cfg fuel (k + 1)).2))) ∧
    (∃ rest, (genLoop env cfg (fuel + 1) (k + 1)).2 =
      .evTempnam (k + 1) (some nm2) ::
      .evOpen (applySfx cfg.sfx nm2) cfg.mode
        (env.openRes (k + 1) (applySfx cfg.sfx nm2)) :: rest) ∧
    (env.openRes k (applySfx cfg.sfx nm) = .othererr →
      genLoop env cfg (fuel + 1) k =
        (.failed .errOpen,
         [.evTempnam k (some nm),
          .evOpen (applySfx cfg.sfx nm) cfg.mode .othererr])) := by
  refine ⟨?_, ?_, ?_⟩
  · intro hop
    rw [genLoop_succ env cfg fuel k nm htn hma]
    simp only [hop]
  · rw [genLoop_succ env cfg fuel (k + 1) nm2 htn2 hma2]
    cases hop2 : env.openRes (k + 1) (applySfx cfg.sfx nm2) with
    | ok fd => exact ⟨_, rfl⟩
    | eexist => exact ⟨_, rfl⟩
    | othererr => exact ⟨_, rfl⟩
  · intro hop
    rw [genLoop_succ env cfg fuel k nm htn hma]
    simp only [hop]

/-- A concrete environment for the witnesses: the k-th tempnam yields "a"
for k = 0 and "b" afterwards, the attempt-0 open collides (EEXIST) while
later attempts succeed with descriptor 3, and every allocation and the close
succeed. -/
def envW : Env where
  tempnamRes := fun _ _ k => some (if k = 0 then ['a'] else ['b'])
  openRes := fun k _ => if k = 0 then .eexist else .ok 3
  mallocOk := fun _ => true
  strdupOk := true
  closeOk := true

/-- A concrete generated-name configuration with suffix ".t" for the
witnesses. -/
def cfgW : Config :=
  { name := none, dir := none, pfx := none, sfx := some ('.' :: 't' :: []),
    mode := 384 }

/-- C1 witness: in envW the first candidate "a.t" collides, the rejected
buffers "a" and "a.t" are freed, and the loop retries at counter 1, applying
the suffix to the fresh candidate "b". -/
theorem c1_retry_only_on_eexist_witness :
    genLoop envW cfgW 2 0 =
      ((genLoop envW cfgW 1 1).1,
       .evTempnam 0 (some ['a']) ::
       .evOpen ('a' :: '.' :: 't' :: []) 384 .eexist ::
       (endFrees ['a'] (some ('.' :: 't' :: [])) ++ (genLoop envW cfgW 1 1).2)) ∧
    (∃ rest, (genLoop envW cfgW 2 1).2 =
      .evTempnam 1 (some ['b']) ::
      .evOpen ('b' :: '.' :: 't' :: []) 384 (.ok 3) :: rest) := by
  have h := c1_retry_only_on_eexist envW cfgW 1 0 ['a'] ['b']
    (by decide) (by decide) (by decide) (by decide)
  exact ⟨h.1 (by decide), h.2.1⟩

/-- C2: with --name F the exclusive create is attempted exactly once, on the
literal path F (every open event in the trace targets F and the requested
mode, and no tempnam call occurs, so there is no retry); and when that open
fails with EEXIST the run is fatal through syserror("open") with exit status
1 and a trace consisting of the single failed open — in particular nothing
was created at F (no successful open event) and nothing is printed. -/
theorem c2_explicit_single_attempt (env : Env) (cfg : Config)
    (F : List Char) (fuel : Nat) (hn : cfg.name = some F) :
    ((tempfileRun env cfg fuel).2.filter isOpenEv).length = 1 ∧
    (∀ p m r, Event.evOpen p m r ∈ (tempfileRun env cfg fuel).2 →
      p = F ∧ m = cfg.mode) ∧
    (∀ j res, Event.evTempnam j res ∉ (tempfileRun env cfg fuel).2) ∧
    (env.openRes 0 F = .eexist →
      tempfileRun env cfg fuel =
        (.fatal .errOpen, [.evOpen F cfg.mode .eexist]) ∧
      exitCode (tempfileRun env cfg fuel).1 = some 1) := by
  cases hop : env.openRes 0 F with
  | ok fd =>
    cases hcl : env.closeOk with
    | true =>
      refine ⟨?_, ?_, ?_, ?_⟩
      all_goals simp [tempfileRun, hn, hop, finishClose, hcl, applySfx,
        endFrees, isOpenEv]
      intro p m r h
      rcases h with ⟨rfl, rfl, rfl⟩ | h | h
      simp_all
    | false =>
      refine ⟨?_, ?_, ?_, ?_⟩
      all_goals simp [tempfileRun, hn, hop, finishClose, hcl, isOpenEv]
      intro p m r h
      rcases h with ⟨rfl, rfl, rfl⟩ | h
      simp_all
  | eexist =>
    refine ⟨?_, ?_, ?_, ?_⟩
    all_goals simp [tempfileRun, hn, hop, isOpenEv, exitCode]
    intro p m r hp hm _
    exact ⟨hp, hm⟩
  | othererr =>
    refine ⟨?_, ?_, ?_, ?_⟩
    all_goals simp [tempfileRun, hn, hop, isOpenEv]
    intro p m r hp hm _
    exact ⟨hp, hm⟩

/-- A concrete environment for the explicit-name witness: the path already
exists (every open attempt fails with EEXIST). -/
def envX : Env where
  tempnamRes := fun _ _ _ => none
  openRes := fun _ _ => .eexist
  mallocOk := fun _ => true
  strdupOk := true
  closeOk := true

/-- A concrete explicit-name configuration (--name "f") for the witness. -/
def cfgX : Config :=
  { name := some ['f'], dir := none, pfx := none, sfx := none, mode := 384 }

/-- C2 witness: with --name "f" and "f" already existing, the run is a single
failed open, exit status 1, no retry and no output. -/
theorem c2_explicit_single_attempt_witness :
    tempfileRun envX cfgX 7 = (.fatal .errOpen, [.evOpen ['f'] 384 .eexist]) ∧
    exitCode (tempfileRun envX cfgX 7).1 = some 1 ∧
    ((tempfileRun envX cfgX 7).2.filter isOpenEv).length = 1 := by
  have h := c2_explicit_single_attempt envX cfgX ['f'] 7 rfl
  have h2 := h.2.2.2 (by decide)
  exact ⟨h2.1, h2.2, h.1⟩

lemma not_mem_endFrees_puts (nm : List Char) (sfx : Option (List Char))
    (p : List Char) : Event.evPuts p ∉ endFrees nm sfx := by
  cases sfx <;> simp [endFrees]

lemma not_mem_endFrees_close (nm : List Char) (sfx : Option (List Char))
    (fd : Nat) (b : Bool) : Event.evClose fd b ∉ endFrees nm sfx := by
  cases sfx <;> simp [endFrees]

/-- C5: the filename is only ever printed after the descriptor has been
closed successfully: every puts event in a run's trace is immediately
preceded by a successful close event and belongs to a successful (exit 0)
run reporting that very name; and whenever the close fails, the run is fatal
through syserror("close") with exit status 1 and no puts event at all — the
tool never claims success. -/
theorem c5_close_before_report (env : Env) (cfg : Config) (fuel : Nat) :
    (∀ p, Event.evPuts p ∈ (tempfileRun env cfg fuel).2 →
      (tempfileRun env cfg fuel).1 = .success p ∧
      ∃ pre post fd, (tempfileRun env cfg fuel).2 =
        pre ++ Event.evClose fd true :: Event.evPuts p :: post) ∧
    (∀ fd, Event.evClose fd false ∈ (tempfileRun env cfg fuel).2 →
      (tempfileRun env cfg fuel).1 = .fatal .errClose ∧
      exitCode (tempfileRun env cfg fuel).1 = some 1 ∧
      ∀ q, Event.evPuts q ∉ (tempfileRun env cfg fuel).2) := by
  cases hn : cfg.name with
  | some n =>
    cases hop : env.openRes 0 n with
    | ok fd =>
      cases hcl : env.closeOk with
      | true =>
        constructor
        · intro p hp
          simp [tempfileRun, hn, hop, finishClose, hcl, applySfx, endFrees] at hp
          rw [hp]
          refine ⟨by simp [tempfileRun, hn, hop, finishClose, hcl, applySfx], ?_⟩
          refine ⟨[Event.evOpen n cfg.mode (.ok fd)], [Event.evFree n], fd, ?_⟩
          simp [tempfileRun, hn, hop, finishClose, hcl, applySfx, endFrees]
        · intro fd2 hfd2
          simp [tempfileRun, hn, hop, finishClose, hcl, applySfx, endFrees] at hfd2
      | false =>
        constructor
        · intro p hp
          simp [tempfileRun, hn, hop, finishClose, hcl] at hp
        · intro fd2 hfd2
          refine ⟨by simp [tempfileRun, hn, hop, finishClose, hcl], by
            simp [tempfileRun, hn, hop, finishClose, hcl, exitCode], ?_⟩
          intro q
          simp [tempfileRun, hn, hop, finishClose, hcl]
    | eexist =>
      constructor
      · intro p hp
        simp [tempfileRun, hn, hop] at hp
      · intro fd2 hfd2
        simp [tempfileRun, hn, hop] at hfd2
    | othererr =>
      constructor
      · intro p hp
        simp [tempfileRun, hn, hop] at hp
      · intro fd2 hfd2
        simp [tempfileRun, hn, hop] at hfd2
  | none =>
    rcases hgl : genLoop env cfg fuel 0 with ⟨res, evs⟩
    have hnp : ∀ p, Event.evPuts p ∉ evs := by
      intro p
      have := genLoop_no_puts env cfg fuel 0 p
      rw [hgl] at this
      exact this
    have hnc : ∀ fd b, Event.evClose fd b ∉ evs := by
      intro fd b
      have := genLoop_no_close env cfg fuel 0 fd b
      rw [hgl] at this
      exact this
    cases res with
    | opened fd nm =>
      cases hcl : env.closeOk with
      | true =>
        constructor
        · intro p hp
          simp only [tempfileRun, hn, hgl, finishClose, hcl, if_true] at hp ⊢
          rw [List.mem_append] at hp
          rcases hp with hp | hp
          · exact absurd hp (hnp p)
          · simp only [List.mem_cons] at hp
            rcases hp with hp | hp | hp
            · exact absurd hp (by simp)
            · have hpn : p = applySfx cfg.sfx nm := by
                injection hp
              subst hpn
              refine ⟨rfl, evs, endFrees nm cfg.sfx, fd, rfl⟩
            · exact absurd hp (not_mem_endFrees_puts nm cfg.sfx p)
        · intro fd2 hfd2
          simp only [tempfileRun, hn, hgl, finishClose, hcl, if_true] at hfd2
          rw [List.mem_append] at hfd2
          rcases hfd2 with hfd2 | hfd2
          · exact absurd hfd2 (hnc fd2 false)
          · simp only [List.mem_cons] at hfd2
            rcases hfd2 with hfd2 | hfd2 | hfd2
            · exact absurd hfd2 (by simp)
            · exact absurd hfd2 (by simp)
            · exact absurd hfd2 (not_mem_endFrees_close nm cfg.sfx fd2 false)
      | false =>
        constructor
        · intro p hp
          simp only [tempfileRun, hn, hgl, finishClose, hcl] at hp
          rw [if_neg (by simp)] at hp
          rw [List.mem_append] at hp
          rcases hp with hp | hp
          · exact absurd hp (hnp p)
          · exact absurd hp (by simp)
        · intro fd2 hfd2
          simp only [tempfileRun, hn, hgl, finishClose, hcl]
          rw [if_neg (by simp)]
          refine ⟨rfl, rfl, ?_⟩
          intro q
          rw [List.mem_append]
          rintro (hq | hq)
          · exact absurd hq (hnp q)
          · exact absurd hq (by simp)
    | failed e =>
      constructor
      · intro p hp
        simp only [tempfileRun, hn, hgl] at hp
        exact absurd hp (hnp p)
      · intro fd2 hfd2
        simp only [tempfileRun, hn, hgl] at hfd2
        exact absurd hfd2 (hnc fd2 false)
    | spin =>
      constructor
      · intro p hp
        simp only [tempfileRun, hn, hgl] at hp
        exact absurd hp (hnp p)
      · intro fd2 hfd2
        simp only [tempfileRun, hn, hgl] at hfd2
        exact absurd hfd2 (hnc fd2 false)

/-- C5 witness: in envW with the generated-name configuration, the trace ends
with a successful close immediately followed by the puts of "b.t", and the
outcome is success. -/
theorem c5_close_before_report_witness :
    (tempfileRun envW cfgW 2).1 = .success ('b' :: '.' :: 't' :: []) ∧
    ∃ pre post fd, (tempfileRun envW cfgW 2).2 =
      pre ++ Event.evClose fd true ::
        Event.evPuts ('b' :: '.' :: 't' :: []) :: post :=
  (c5_close_before_report envW cfgW 2).1 ('b' :: '.' :: 't' :: []) (by decide)

lemma filter_isPutsEv_endFrees (nm : List Char) (sfx : Option (List Char)) :
    (endFrees nm sfx).filter isPutsEv = [] := by
  cases sfx <;> simp [endFrees, isPutsEv]

/-- C7: on every run whose outcome is success, the exit status is 0, the
trace holds exactly one puts event — a single line carrying precisely the
reported path — and that path is the one the successful exclusive create was
performed on, with the configured mode. -/
theorem c7_success_prints_path_once (env : Env) (cfg : Config) (fuel : Nat)
    (p : List Char) (h : (tempfileRun env cfg fuel).1 = .success p) :
    exitCode (tempfileRun env cfg fuel).1 = some 0 ∧
    (tempfileRun env cfg fuel).2.filter isPutsEv = [.evPuts p] ∧
    ∃ fd, Event.evOpen p cfg.mode (.ok fd) ∈ (tempfileRun env cfg fuel).2 := by
  cases hn : cfg.name with
  | some n =>
    cases hop : env.openRes 0 n with
    | ok fd =>
      cases hcl : env.closeOk with
      | true =>
        have hp : p = n := by
          simp [tempfileRun, hn, hop, finishClose, hcl, applySfx] at h
          exact h.symm
        subst hp
        refine ⟨by rw [h]; rfl, ?_, fd, ?_⟩
        · simp [tempfileRun, hn, hop, finishClose, hcl, applySfx, endFrees,
            isPutsEv]
        · simp [tempfileRun, hn, hop, finishClose, hcl]
      | false =>
        simp [tempfileRun, hn, hop, finishClose, hcl] at h
    | eexist => simp [tempfileRun, hn, hop] at h
    | othererr => simp [tempfileRun, hn, hop] at h
  | none =>
    rcases hgl : genLoop env cfg fuel 0 with ⟨res, evs⟩
    have hnp : ∀ q, Event.evPuts q ∉ evs := by
      intro q
      have := genLoop_no_puts env cfg fuel 0 q
      rw [hgl] at this
      exact this
    cases res with
    | opened fd nm =>
      cases hcl : env.closeOk with
      | true =>
        have hp : p = applySfx cfg.sfx nm := by
          simp [tempfileRun, hn, hgl, finishClose, hcl] at h
          exact h.symm
        subst hp
        have hmem := genLoop_opened_open_event env cfg fuel 0 fd nm evs hgl
        refine ⟨by rw [h]; rfl, ?_, fd, ?_⟩
        · simp only [tempfileRun, hn, hgl, finishClose, hcl, if_true,
            List.filter_append]
          rw [List.filter_eq_nil_iff.mpr (by
            intro a ha
            cases a with
            | evPuts q => exact absurd ha (hnp q)
            | evTempnam j res => simp [isPutsEv]
            | evOpen a b c => simp [isPutsEv]
            | evFree s => simp [isPutsEv]
            | evClose a b => simp [isPutsEv])]
          simp [isPutsEv, filter_isPutsEv_endFrees]
        · simp only [tempfileRun, hn, hgl, finishClose, hcl, if_true]
          exact List.mem_append_left _ hmem
      | false =>
        simp [tempfileRun, hn, hgl, finishClose, hcl] at h
    | failed e => simp [tempfileRun, hn, hgl] at h
    | spin => simp [tempfileRun, hn, hgl] at h

/-- C7 witness: the successful envW run prints exactly the line "b.t", exits
0, and "b.t" is the path of the successful create. -/
theorem c7_success_prints_path_once_witness :
    exitCode (tempfileRun envW cfgW 2).1 = some 0 ∧
    (tempfileRun envW cfgW 2).2.filter isPutsEv =
      [.evPuts ('b' :: '.' :: 't' :: [])] ∧
    ∃ fd, Event.evOpen ('b' :: '.' :: 't' :: []) cfgW.mode (.ok fd) ∈
      (tempfileRun envW cfgW 2).2 :=
  c7_success_prints_path_once envW cfgW 2 ('b' :: '.' :: 't' :: []) (by decide)

/-- C8: when a suffix s is configured and no explicit name was given, every
successful run reports a path that is a tempnam-generated base name with s
concatenated at its end; the generation of that base appears in the trace. -/
theorem c8_suffix_applied (env : Env) (cfg : Config) (fuel : Nat)
    (s p : List Char) (hn : cfg.name = none) (hs : cfg.sfx = some s)
    (h : (tempfileRun env cfg fuel).1 = .success p) :
    ∃ base, p = base ++ s ∧
      ∃ j, env.tempnamRes cfg.dir cfg.pfx j = some base ∧
        Event.evTempnam j (some base) ∈ (tempfileRun env cfg fuel).2 := by
  rcases hgl : genLoop env cfg fuel 0 with ⟨res, evs⟩
  cases res with
  | opened fd nm =>
    cases hcl : env.closeOk with
    | true =>
      have hp : p = applySfx cfg.sfx nm := by
        simp [tempfileRun, hn, hgl, finishClose, hcl] at h
        exact h.symm
      obtain ⟨j, hj, hjm⟩ := genLoop_opened_tempnam env cfg fuel 0 fd nm evs hgl
      refine ⟨nm, by rw [hp, hs]; rfl, j, hj, ?_⟩
      simp only [tempfileRun, hn, hgl, finishClose, hcl, if_true]
      exact List.mem_append_left _ hjm
    | false => simp [tempfileRun, hn, hgl, finishClose, hcl] at h
  | failed e => simp [tempfileRun, hn, hgl] at h
  | spin => simp [tempfileRun, hn, hgl] at h

/-- C8 witness: the successful envW run reports "b.t" = "b" ++ ".t", where
"b" is the base name tempnam returned on the second attempt. -/
theorem c8_suffix_applied_witness :
    ∃ base, ('b' :: '.' :: 't' :: []) = base ++ ('.' :: 't' :: []) ∧
      ∃ j, envW.tempnamRes cfgW.dir cfgW.pfx j = some base ∧
        Event.evTempnam j (some base) ∈ (tempfileRun envW cfgW 2).2 :=
  c8_suffix_applied envW cfgW 2 ('.' :: 't' :: []) ('b' :: '.' :: 't' :: [])
    rfl rfl (by decide)

lemma processOpts_append (env : Env) :
    ∀ (pre rest : List OptTok) (cfg : Config),
      processOpts env (pre ++ rest) cfg =
        match processOpts env pre cfg with
        | .done c => processOpts env rest c
        | .exited k => .exited k := by
  intro pre
  induction pre with
  | nil => intro rest cfg; rfl
  | cons o t ih =>
    intro rest cfg
    cases o with
    | optP s => exact ih rest _
    | optS s => exact ih rest _
    | optD s => exact ih rest _
    | optM s =>
      by_cases hm : (parsemode s cfg.mode).1 = 1
      · simp [processOpts, hm]
      · simp only [List.cons_append, processOpts, if_neg hm]
        exact ih rest _
    | optN s =>
      by_cases hd : env.strdupOk = true
      · simp only [List.cons_append, processOpts, if_pos hd]
        exact ih rest _
      · rw [Bool.not_eq_true] at hd
        simp [processOpts, hd]
    | optHelp => rfl
    | optVersion => rfl
    | optUnknown => rfl

/-- C6: if option processing reaches a --mode argument that fails to parse
(with whatever mask is current at that point), the whole run exits with
status 1 and an empty event trace: no tempnam, no open, no file creation is
ever attempted, whatever options follow. -/
theorem c6_invalid_mode_aborts_before_creation (env : Env)
    (pre post : List OptTok) (s : List Char) (fuel : Nat) (cfg : Config)
    (hpre : processOpts env pre defaultConfig = .done cfg)
    (hbad : (parsemode s cfg.mode).1 = 1) :
    tempfileMain env (pre ++ .optM s :: post) fuel = (.earlyExit 1, []) ∧
    exitCode (tempfileMain env (pre ++ .optM s :: post) fuel).1 = some 1 ∧
    (tempfileMain env (pre ++ .optM s :: post) fuel).2 = [] := by
  have h1 : processOpts env (pre ++ .optM s :: post) defaultConfig =
      .exited 1 := by
    rw [processOpts_append env pre (.optM s :: post) defaultConfig, hpre]
    simp [processOpts, hbad]
  refine ⟨?_, ?_, ?_⟩ <;> simp [tempfileMain, h1, exitCode]

/-- C6 witness: `tempfile --mode 999` exits 1 with no filesystem events even
in an environment where creation would succeed. -/
theorem c6_invalid_mode_aborts_before_creation_witness :
    tempfileMain envW (.optM ('9' :: '9' :: '9' :: []) :: []) 3 =
      (.earlyExit 1, []) :=
  (c6_invalid_mode_aborts_before_creation envW [] []
    ('9' :: '9' :: '9' :: []) 3 defaultConfig rfl (by decide)).1

end Tempfile
